import Mathlib

/-!
Shallow embedding of `memBoundCh.go` (package `common`): a memory-bounded
wrapper around a Go channel.  The Go struct `MemBoundCh` holds int64 fields
`size`, `maxSize`, `closed`, `waitFull`, a buffered channel `ch` of capacity
`count`, a mutex `mu` and a condition variable `notfull`.

All int64 arithmetic (`atomic.AddInt64`, `+`, `0-size`) is modelled as
integers wrapped into the int64 range with `wrap64`.  The channel is
modelled as the list of buffered elements plus its capacity.  The mutex and
condition variable are synchronization objects with no data content; the
observable effects of `notfull.Signal()`, `notfull.Broadcast()` and
`close(ch)` are recorded in ghost event counters `signalCount`,
`broadcastCount` and `chCloseCount` so that theorems can speak about how
many times each effect was emitted.

Operations are given sequential (one call at a time, run to completion)
semantics.  A `Push` that reaches `notfull.Wait()` cannot return in a
sequential run, so `push` reports the outcome `wouldBlockWait` together
with the state after the waiter registered (`waitFull` incremented); a
`Push` that blocks on a full channel buffer reports `wouldBlockSend` (the
reservation `atomic.AddInt64(&size, elemsz)` has already happened at that
point, as in the source).  The lost-wakeup analysis additionally uses a
small interleaved machine (`raceStep`) whose micro-steps follow the
statement order of the Go source.
-/

/-- Smallest int64 value, `-2^63`. -/
def INT64_MIN : Int := -(2 ^ 63)

/-- Largest int64 value, `2^63 - 1`. -/
def INT64_MAX : Int := 2 ^ 63 - 1

/-- Wrap an integer into the int64 range, as Go two's-complement
arithmetic does on overflow. -/
def wrap64 (x : Int) : Int := (x + 2 ^ 63) % 2 ^ 64 - 2 ^ 63

/-- Go `a + b` / `atomic.AddInt64(&a, b)` on int64: add and wrap. -/
def addInt64 (a b : Int) : Int := wrap64 (a + b)

/-- The four package-level error values of `memBoundCh.go`. -/
inductive ChError where
  | errorChClosed
  | errorSize
  | errorInvMaxSize
  | errorInvSize
  deriving DecidableEq, Repr

/-- State of a `MemBoundCh`: the int64 fields of the Go struct, the
buffered channel contents (`chElems`, capacity `chCap`, elements opaque and
modelled as `Int`), and ghost counters for the emitted synchronization /
close effects. -/
structure MemBoundCh where
  size : Int
  maxSize : Int
  closed : Int
  waitFull : Int
  chCap : Nat
  chElems : List Int
  signalCount : Nat
  broadcastCount : Nat
  chCloseCount : Nat
  deriving DecidableEq, Repr

/-- `NewMemBoundCh(count, size)`: fresh state with an empty channel of
capacity `count`, `maxSize = size`, and `size`, `waitFull`, `closed` zero. -/
def NewMemBoundCh (count : Nat) (size : Int) : MemBoundCh :=
  { size := 0
    maxSize := size
    closed := 0
    waitFull := 0
    chCap := count
    chElems := []
    signalCount := 0
    broadcastCount := 0
    chCloseCount := 0 }

/-- `GetSize()`: atomic load of the running size. -/
def GetSize (st : MemBoundCh) : Int := st.size

/-- `GetMaxSize()`: atomic load of the configured quota. -/
def GetMaxSize (st : MemBoundCh) : Int := st.maxSize

/-- `SetMaxSize(size)`: reject a negative quota with `ErrorInvMaxSize`,
otherwise store it. -/
def SetMaxSize (st : MemBoundCh) (size : Int) : Option ChError × MemBoundCh :=
  if size < 0 then (some ChError.errorInvMaxSize, st)
  else (none, { st with maxSize := size })

/-- `DecrSize(size)`: if the current size is zero return nil at once;
otherwise apply `atomic.AddInt64(&size, 0-size)`, return `ErrorInvSize`
when the stored size is now negative, and otherwise signal (and decrement
`waitFull`) exactly when `waitFull > 0` and the new size is below the
quota. -/
def DecrSize (st : MemBoundCh) (size : Int) : Option ChError × MemBoundCh :=
  if GetSize st = 0 then (none, st)
  else
    let st1 : MemBoundCh := { st with size := addInt64 st.size (wrap64 (0 - size)) }
    if GetSize st1 < 0 then (some ChError.errorInvSize, st1)
    else if 0 < st1.waitFull ∧ st1.size < GetMaxSize st1 then
      (none, { st1 with
                signalCount := st1.signalCount + 1
                waitFull := addInt64 st1.waitFull (-1) })
    else (none, st1)

/-- Outcome of one sequential run of `Push`. -/
inductive PushOutcome where
  | ok
  | errSize
  | errClosed
  | wouldBlockWait
  | wouldBlockSend
  deriving DecidableEq, Repr

/-- `Push(elem, elemsz)`, one pass of the retry loop run sequentially:
the oversize check, the closed check, the capacity check (registering as a
waiter and blocking when full), then the reservation
`atomic.AddInt64(&size, elemsz)` followed by the channel send (which blocks
when the buffer is full, after the reservation). -/
def Push (st : MemBoundCh) (elem : Int) (elemsz : Int) : PushOutcome × MemBoundCh :=
  if GetMaxSize st < elemsz then (PushOutcome.errSize, st)
  else if st.closed ≠ 0 then (PushOutcome.errClosed, st)
  else if GetMaxSize st < addInt64 (GetSize st) elemsz then
    (PushOutcome.wouldBlockWait, { st with waitFull := addInt64 st.waitFull 1 })
  else if st.chElems.length < st.chCap then
    (PushOutcome.ok, { st with
                        size := addInt64 (GetSize st) elemsz
                        chElems := st.chElems ++ [elem] })
  else (PushOutcome.wouldBlockSend, { st with size := addInt64 (GetSize st) elemsz })

/-- `Close()`: a compare-and-swap of `closed` from 0 to 1; the winner
broadcasts, stores 0 to `waitFull` and closes the channel; a loser does
nothing. -/
def Close (st : MemBoundCh) : MemBoundCh :=
  if st.closed = 0 then
    { st with
        closed := 1
        broadcastCount := st.broadcastCount + 1
        waitFull := 0
        chCloseCount := st.chCloseCount + 1 }
  else st

theorem wrap64_eq_self (x : Int) (h1 : -(2 ^ 63) ≤ x) (h2 : x < 2 ^ 63) :
    wrap64 x = x := by
  unfold wrap64
  have h3 : (0 : Int) ≤ x + 2 ^ 63 := by omega
  have h4 : x + 2 ^ 63 < 2 ^ 64 := by omega
  rw [Int.emod_eq_of_lt h3 h4]
  omega

/-- C1: `Push` with a declared size strictly above the current quota fails
with `ErrorSize` and changes nothing: the running size is not reserved and
the element is not enqueued (the whole state is returned unchanged). -/
theorem push_oversized_rejected (st : MemBoundCh) (elem elemsz : Int)
    (h : GetMaxSize st < elemsz) :
    Push st elem elemsz = (PushOutcome.errSize, st) := by
  unfold Push
  rw [if_pos h]

theorem push_oversized_rejected_witness :
    Push (NewMemBoundCh 10 100) 7 150 = (PushOutcome.errSize, NewMemBoundCh 10 100) :=
  push_oversized_rejected (NewMemBoundCh 10 100) 7 150 (by decide)

/-- C7: `SetMaxSize` rejects a negative quota with `ErrorInvMaxSize` and
keeps the previous quota; a non-negative quota (zero included) is stored
and `GetMaxSize` then returns exactly it. -/
theorem setMaxSize_spec (st : MemBoundCh) (size : Int) :
    (size < 0 → SetMaxSize st size = (some ChError.errorInvMaxSize, st)) ∧
    (0 ≤ size → (SetMaxSize st size).1 = none ∧
      GetMaxSize (SetMaxSize st size).2 = size ∧
      (SetMaxSize st size).2 = { st with maxSize := size }) := by
  unfold SetMaxSize GetMaxSize
  constructor
  · intro h
    rw [if_pos h]
  · intro h
    rw [if_neg (by omega)]
    exact ⟨rfl, rfl, rfl⟩

theorem setMaxSize_spec_witness :
    SetMaxSize (NewMemBoundCh 5 7) (-3) = (some ChError.errorInvMaxSize, NewMemBoundCh 5 7) ∧
    (SetMaxSize (NewMemBoundCh 5 7) 0).1 = none ∧
    GetMaxSize (SetMaxSize (NewMemBoundCh 5 7) 0).2 = 0 :=
  ⟨(setMaxSize_spec (NewMemBoundCh 5 7) (-3)).1 (by decide),
   ((setMaxSize_spec (NewMemBoundCh 5 7) 0).2 (by decide)).1,
   ((setMaxSize_spec (NewMemBoundCh 5 7) 0).2 (by decide)).2.1⟩

/-- C10: when the running size is exactly zero, `DecrSize` returns nil for
every argument (a double release at zero included) and the whole state —
running size, waiter count and quota in particular — is unchanged. -/
theorem decrSize_at_zero_noop (st : MemBoundCh) (size : Int)
    (h : GetSize st = 0) :
    DecrSize st size = (none, st) := by
  unfold DecrSize
  rw [if_pos h]

theorem decrSize_at_zero_noop_witness :
    DecrSize (NewMemBoundCh 5 128) 40 = (none, NewMemBoundCh 5 128) :=
  decrSize_at_zero_noop (NewMemBoundCh 5 128) 40 (by decide)

/-- C2 counterexample: on a closed channel (`Close` applied to a fresh
channel of quota 10) a `Push` of declared size 20 does not fail with
`ErrorChClosed` — the oversize check runs first and returns `ErrorSize`. -/
theorem push_after_close_cex :
    (Close (NewMemBoundCh 10 10)).closed ≠ 0 ∧
    (Push (Close (NewMemBoundCh 10 10)) 0 20).1 = PushOutcome.errSize ∧
    (Push (Close (NewMemBoundCh 10 10)) 0 20).1 ≠ PushOutcome.errClosed := by
  refine ⟨by decide, by decide, by decide⟩

/-- C2 amended: after `Close` has completed, every `Push` whose declared
size does not exceed the current quota fails with `ErrorChClosed` and
changes nothing; a `Push` whose size exceeds the quota still fails, but
with `ErrorSize` (in no case does a post-close `Push` block or enqueue). -/
theorem push_after_close (st : MemBoundCh) (elem elemsz : Int)
    (hclosed : st.closed ≠ 0) (hsz : elemsz ≤ GetMaxSize st) :
    Push st elem elemsz = (PushOutcome.errClosed, st) := by
  unfold Push
  rw [if_neg (by omega), if_pos hclosed]

theorem push_after_close_witness :
    Push (Close (NewMemBoundCh 10 10)) 3 5 =
      (PushOutcome.errClosed, Close (NewMemBoundCh 10 10)) :=
  push_after_close (Close (NewMemBoundCh 10 10)) 3 5 (by decide) (by decide)

/-- C3 counterexample: the claim fails twice on the code.  At running size
0, `DecrSize 5` (whose subtraction would go negative) succeeds instead of
failing with `ErrorInvSize`; at running size 3, `DecrSize 5` does fail with
`ErrorInvSize` but the decrement has been applied and the stored running
size is left at -2, i.e. negative. -/
theorem decrSize_negative_cex :
    DecrSize (NewMemBoundCh 5 128) 5 = (none, NewMemBoundCh 5 128) ∧
    (DecrSize { NewMemBoundCh 5 128 with size := 3 } 5).1 = some ChError.errorInvSize ∧
    (DecrSize { NewMemBoundCh 5 128 with size := 3 } 5).2.size = -2 := by
  refine ⟨by decide, by decide, by decide⟩

/-- C3 amended: for every `DecrSize size` call made from a strictly
positive running size (both values in int64 range, `size` non-negative)
whose subtraction makes the result negative, the call fails with
`ErrorInvSize`, but the decrement has already been applied: the stored
running size equals the old size minus `size` and is left negative. -/
theorem decrSize_negative_applied (st : MemBoundCh) (size : Int)
    (hpos : 0 < GetSize st) (hub : GetSize st ≤ INT64_MAX)
    (hs0 : 0 ≤ size) (hs1 : size ≤ INT64_MAX)
    (hneg : GetSize st - size < 0) :
    (DecrSize st size).1 = some ChError.errorInvSize ∧
    (DecrSize st size).2.size = GetSize st - size ∧
    (DecrSize st size).2.size < 0 := by
  unfold GetSize INT64_MAX at *
  have hw : addInt64 st.size (wrap64 (0 - size)) = st.size - size := by
    rw [wrap64_eq_self (0 - size) (by omega) (by omega)]
    unfold addInt64
    rw [wrap64_eq_self _ (by omega) (by omega)]
    omega
  unfold DecrSize GetSize
  rw [if_neg (by omega)]
  simp only [hw]
  rw [if_pos (by omega)]
  exact ⟨rfl, show st.size - size = st.size - size from rfl,
         show st.size - size < 0 by omega⟩

theorem decrSize_negative_applied_witness :
    (DecrSize { NewMemBoundCh 5 128 with size := 3 } 7).1 = some ChError.errorInvSize ∧
    (DecrSize { NewMemBoundCh 5 128 with size := 3 } 7).2.size = 3 - 7 ∧
    (DecrSize { NewMemBoundCh 5 128 with size := 3 } 7).2.size < 0 :=
  decrSize_negative_applied { NewMemBoundCh 5 128 with size := 3 } 7
    (by decide) (by decide) (by decide) (by decide) (by decide)

/-- C5: `Close` is idempotent.  A call on an open channel performs the
whole transition — closed flag set, one broadcast, waiter count reset to
zero, underlying channel closed once; a call on an already-closed channel
changes nothing; and a second `Close` after a first is always a no-op. -/
theorem close_idempotent (st : MemBoundCh) :
    (st.closed = 0 → Close st =
      { st with closed := 1, broadcastCount := st.broadcastCount + 1,
                waitFull := 0, chCloseCount := st.chCloseCount + 1 }) ∧
    (st.closed ≠ 0 → Close st = st) ∧
    Close (Close st) = Close st := by
  refine ⟨fun h => by unfold Close; rw [if_pos h],
          fun h => by unfold Close; rw [if_neg h], ?_⟩
  by_cases h : st.closed = 0
  · have h1 : Close st =
        { st with closed := 1, broadcastCount := st.broadcastCount + 1,
                  waitFull := 0, chCloseCount := st.chCloseCount + 1 } := by
      unfold Close
      rw [if_pos h]
    rw [h1]
    unfold Close
    rw [if_neg (by simp)]
  · have h1 : Close st = st := by
      unfold Close
      rw [if_neg h]
    rw [h1]
    exact h1

theorem close_idempotent_witness :
    Close (NewMemBoundCh 4 9) =
      { NewMemBoundCh 4 9 with
          closed := 1,
          broadcastCount := (NewMemBoundCh 4 9).broadcastCount + 1,
          waitFull := 0, chCloseCount := (NewMemBoundCh 4 9).chCloseCount + 1 } ∧
    Close (Close (NewMemBoundCh 4 9)) = Close (NewMemBoundCh 4 9) :=
  ⟨(close_idempotent (NewMemBoundCh 4 9)).1 (by decide),
   (close_idempotent (NewMemBoundCh 4 9)).2.2⟩

/-- C6 counterexample: with running size 0, one registered waiter and
quota 10, `DecrSize 5` succeeds, the post-call size (0) is strictly below
the quota and a waiter is registered, yet no signal is issued and the
waiter count stays 1 — the zero-size fast path returns before the wake
logic, refuting the claimed "if and only if". -/
theorem decrSize_wake_skipped_cex :
    (DecrSize { NewMemBoundCh 5 10 with waitFull := 1 } 5).1 = none ∧
    ({ NewMemBoundCh 5 10 with waitFull := 1 } : MemBoundCh).waitFull = 1 ∧
    GetSize (DecrSize { NewMemBoundCh 5 10 with waitFull := 1 } 5).2 <
      GetMaxSize (DecrSize { NewMemBoundCh 5 10 with waitFull := 1 } 5).2 ∧
    (DecrSize { NewMemBoundCh 5 10 with waitFull := 1 } 5).2.signalCount =
      ({ NewMemBoundCh 5 10 with waitFull := 1 } : MemBoundCh).signalCount ∧
    (DecrSize { NewMemBoundCh 5 10 with waitFull := 1 } 5).2.waitFull = 1 := by
  refine ⟨by decide, by decide, by decide, by decide, by decide⟩

/-- C6 amended: for every successful `DecrSize size` call made from a
strictly positive running size (values in int64 range, `size` and the
waiter count non-negative), one signal is issued and the waiter count is
decremented by one if and only if the waiter count is at least one and the
post-release running size is strictly below the quota; at most one signal
is ever issued per call and no broadcast.  (Calls taking the zero-size
fast path return before the wake logic and never signal.) -/
theorem DecrSize_pos_eq (st : MemBoundCh) (size : Int)
    (hpos : 0 < st.size) (hub : st.size ≤ INT64_MAX)
    (hs0 : 0 ≤ size) (hs1 : size ≤ INT64_MAX)
    (hw0 : 0 ≤ st.waitFull) (hw1 : st.waitFull ≤ INT64_MAX) :
    DecrSize st size =
      if st.size - size < 0 then
        (some ChError.errorInvSize, { st with size := st.size - size })
      else if 0 < st.waitFull ∧ st.size - size < st.maxSize then
        (none, { st with
                  size := st.size - size
                  signalCount := st.signalCount + 1
                  waitFull := st.waitFull - 1 })
      else (none, { st with size := st.size - size }) := by
  unfold INT64_MAX at *
  have hw : addInt64 st.size (wrap64 (0 - size)) = st.size - size := by
    rw [wrap64_eq_self (0 - size) (by omega) (by omega)]
    unfold addInt64
    rw [wrap64_eq_self _ (by omega) (by omega)]
    omega
  have hwf : addInt64 st.waitFull (-1) = st.waitFull - 1 := by
    unfold addInt64
    rw [wrap64_eq_self _ (by omega) (by omega)]
    omega
  unfold DecrSize GetSize GetMaxSize
  rw [if_neg (show ¬ st.size = 0 by omega)]
  simp only [hw, hwf]

/-- C6 amended: for every successful `DecrSize size` call made from a
strictly positive running size (values in int64 range, `size` and the
waiter count non-negative), one signal is issued and the waiter count is
decremented by one if and only if the waiter count is at least one and the
post-release running size is strictly below the quota; at most one signal
is ever issued per call and no broadcast.  (Calls taking the zero-size
fast path return before the wake logic and never signal.) -/
theorem decrSize_wake_policy (st : MemBoundCh) (size : Int)
    (hpos : 0 < GetSize st) (hub : GetSize st ≤ INT64_MAX)
    (hs0 : 0 ≤ size) (hs1 : size ≤ INT64_MAX)
    (hw0 : 0 ≤ st.waitFull) (hw1 : st.waitFull ≤ INT64_MAX)
    (hok : (DecrSize st size).1 = none) :
    (((DecrSize st size).2.signalCount = st.signalCount + 1 ∧
      (DecrSize st size).2.waitFull = st.waitFull - 1) ↔
     (1 ≤ st.waitFull ∧ GetSize st - size < GetMaxSize st)) ∧
    (DecrSize st size).2.signalCount ≤ st.signalCount + 1 ∧
    (DecrSize st size).2.broadcastCount = st.broadcastCount := by
  unfold GetSize GetMaxSize at *
  rw [DecrSize_pos_eq st size hpos hub hs0 hs1 hw0 hw1] at hok ⊢
  by_cases hneg : st.size - size < 0
  · rw [if_pos hneg] at hok
    simp at hok
  · rw [if_neg hneg] at hok ⊢
    by_cases hcond : 0 < st.waitFull ∧ st.size - size < st.maxSize
    · rw [if_pos hcond]
      refine ⟨⟨fun _ => ⟨by omega, hcond.2⟩, fun _ => ⟨rfl, rfl⟩⟩, ?_, rfl⟩
      show st.signalCount + 1 ≤ st.signalCount + 1
      omega
    · rw [if_neg hcond]
      refine ⟨⟨fun hl => ?_, fun hr => absurd ⟨by omega, hr.2⟩ hcond⟩, ?_, rfl⟩
      · have hx : st.signalCount = st.signalCount + 1 := hl.1
        omega
      · show st.signalCount ≤ st.signalCount + 1
        omega

theorem decrSize_wake_policy_witness :
    ((DecrSize { NewMemBoundCh 5 10 with size := 5, waitFull := 1 } 3).2.signalCount =
        ({ NewMemBoundCh 5 10 with size := 5, waitFull := 1 } : MemBoundCh).signalCount + 1 ∧
      (DecrSize { NewMemBoundCh 5 10 with size := 5, waitFull := 1 } 3).2.waitFull =
        ({ NewMemBoundCh 5 10 with size := 5, waitFull := 1 } : MemBoundCh).waitFull - 1 ↔
     1 ≤ ({ NewMemBoundCh 5 10 with size := 5, waitFull := 1 } : MemBoundCh).waitFull ∧
       GetSize { NewMemBoundCh 5 10 with size := 5, waitFull := 1 } - 3 <
         GetMaxSize { NewMemBoundCh 5 10 with size := 5, waitFull := 1 }) ∧
    (DecrSize { NewMemBoundCh 5 10 with size := 5, waitFull := 1 } 3).2.signalCount ≤
      ({ NewMemBoundCh 5 10 with size := 5, waitFull := 1 } : MemBoundCh).signalCount + 1 ∧
    (DecrSize { NewMemBoundCh 5 10 with size := 5, waitFull := 1 } 3).2.broadcastCount =
      ({ NewMemBoundCh 5 10 with size := 5, waitFull := 1 } : MemBoundCh).broadcastCount :=
  decrSize_wake_policy { NewMemBoundCh 5 10 with size := 5, waitFull := 1 } 3
    (by decide) (by decide) (by decide) (by decide) (by decide) (by decide) (by decide)

/-- One operation of a sequential execution on a `MemBoundCh`: a producer
`Push` of an element (element value opaque, 0 is used) with declared size
`s`, or a consumer `DecrSize s`. -/
inductive Op where
  | push (s : Int)
  | decr (s : Int)
  deriving DecidableEq, Repr

/-- Declared size carried by an operation. -/
def Op.sz : Op → Int
  | Op.push s => s
  | Op.decr s => s

/-- Run a list of operations sequentially from a state.  The Bool records
whether every call returned nil: a `Push` that errors or would block, or a
`DecrSize` that errors, stops the run with `false`. -/
def runOps : MemBoundCh → List Op → Bool × MemBoundCh
  | st, [] => (true, st)
  | st, Op.push s :: rest =>
    if (Push st 0 s).1 = PushOutcome.ok then runOps (Push st 0 s).2 rest
    else (false, (Push st 0 s).2)
  | st, Op.decr s :: rest =>
    if (DecrSize st s).1 = none then runOps (DecrSize st s).2 rest
    else (false, (DecrSize st s).2)

/-- Left-to-right matching discipline: every `decr` consumes a distinct
earlier unmatched `push` of the same size (`avail` holds the sizes of the
so-far-unmatched pushes), and at the end every `push` has been matched. -/
def matchedFrom : List Op → List Int → Bool
  | [], avail => avail.isEmpty
  | Op.push s :: rest, avail => matchedFrom rest (s :: avail)
  | Op.decr s :: rest, avail => decide (s ∈ avail) && matchedFrom rest (avail.erase s)

/-- C8: on a queue created with byte quota 128, three sequential rounds of
`Push` of a 40-byte element followed by `DecrSize 40` all succeed without
waiting, and the final running size is 0. -/
theorem scenario_quota_128 :
    (runOps (NewMemBoundCh 1000 128)
      [Op.push 40, Op.decr 40, Op.push 40, Op.decr 40, Op.push 40, Op.decr 40]).1 = true ∧
    GetSize (runOps (NewMemBoundCh 1000 128)
      [Op.push 40, Op.decr 40, Op.push 40, Op.decr 40, Op.push 40, Op.decr 40]).2 = 0 := by
  refine ⟨by decide, by decide⟩

theorem erase_sum_of_mem (l : List Int) (s : Int) (h : s ∈ l) :
    (l.erase s).sum = l.sum - s := by
  have hp : l.sum = (s :: l.erase s).sum := (List.perm_cons_erase h).sum_eq
  rw [List.sum_cons] at hp
  omega

theorem mem_le_sum_of_nonneg (l : List Int) (s : Int) (h : s ∈ l)
    (hnn : ∀ x ∈ l, 0 ≤ x) : s ≤ l.sum := by
  have h1 := erase_sum_of_mem l s h
  have h2 : 0 ≤ (l.erase s).sum :=
    List.sum_nonneg (fun x hx => hnn x (List.mem_of_mem_erase hx))
  omega

theorem Push_ok_inv (st : MemBoundCh) (elem s : Int) (st1 : MemBoundCh)
    (h : Push st elem s = (PushOutcome.ok, st1)) :
    s ≤ st.maxSize ∧ st.closed = 0 ∧ addInt64 st.size s ≤ st.maxSize ∧
    st1 = { st with
             size := addInt64 st.size s
             chElems := st.chElems ++ [elem] } := by
  unfold Push GetMaxSize GetSize at h
  by_cases h1 : st.maxSize < s
  · rw [if_pos h1] at h
    simp at h
  · rw [if_neg h1] at h
    by_cases h2 : st.closed ≠ 0
    · rw [if_pos h2] at h
      simp at h
    · rw [if_neg h2] at h
      by_cases h3 : st.maxSize < addInt64 st.size s
      · rw [if_pos h3] at h
        simp at h
      · rw [if_neg h3] at h
        by_cases h4 : st.chElems.length < st.chCap
        · rw [if_pos h4] at h
          simp only [Prod.mk.injEq] at h
          exact ⟨by omega, by omega, by omega, h.2.symm⟩
        · rw [if_neg h4] at h
          simp at h

theorem runOps_conservation_aux (ops : List Op) :
    ∀ (st : MemBoundCh) (avail : List Int),
      st.closed = 0 →
      0 ≤ st.maxSize → 2 * st.maxSize < 2 ^ 63 →
      0 ≤ st.waitFull → st.waitFull ≤ INT64_MAX →
      (∀ op ∈ ops, 0 ≤ Op.sz op) →
      st.size = avail.sum →
      (∀ x ∈ avail, 0 ≤ x) →
      avail.sum ≤ st.maxSize →
      matchedFrom ops avail = true →
      (runOps st ops).1 = true →
      (runOps st ops).2.size = 0 := by
  induction ops with
  | nil =>
    intro st avail _ _ _ _ _ _ hsz _ _ hm _
    have hemp : avail = [] := by
      simpa [matchedFrom, List.isEmpty_iff] using hm
    show st.size = 0
    rw [hsz, hemp]
    rfl
  | cons op rest ih =>
    intro st avail hcl hq0 hq1 hwf0 hwf1 hnn hsz hav hub hm hok
    cases op with
    | push s =>
      have hm2 : matchedFrom rest (s :: avail) = true := hm
      have h0s : 0 ≤ s := hnn _ (List.mem_cons_self _ _)
      have hnn2 : ∀ op ∈ rest, 0 ≤ Op.sz op :=
        fun op hop => hnn op (List.mem_cons_of_mem _ hop)
      rcases hp : Push st 0 s with ⟨out, st1⟩
      by_cases hOk : out = PushOutcome.ok
      · subst hOk
        obtain ⟨hsle, -, hfit, hst1⟩ := Push_ok_inv st 0 s st1 hp
        have hsumnn : 0 ≤ avail.sum := List.sum_nonneg hav
        have hw : addInt64 st.size s = st.size + s := by
          unfold addInt64
          rw [wrap64_eq_self _ (by omega) (by omega)]
        have hrw : runOps st (Op.push s :: rest) = runOps st1 rest := by
          simp only [runOps]
          rw [hp]
          rfl
        rw [hrw] at hok ⊢
        subst hst1
        refine ih _ (s :: avail) hcl hq0 hq1 hwf0 hwf1 hnn2 ?_ ?_ ?_ hm2 hok
        · show addInt64 st.size s = (s :: avail).sum
          rw [hw, List.sum_cons]
          omega
        · intro x hx
          rcases List.mem_cons.mp hx with hx1 | hx2
          · rw [hx1]
            exact h0s
          · exact hav x hx2
        · show (s :: avail).sum ≤ st.maxSize
          rw [List.sum_cons]
          rw [hw] at hfit
          omega
      · exfalso
        have hfalse : runOps st (Op.push s :: rest) = (false, st1) := by
          simp only [runOps]
          rw [hp, if_neg hOk]
        rw [hfalse] at hok
        simp at hok
    | decr s =>
      have hmm : s ∈ avail ∧ matchedFrom rest (avail.erase s) = true := by
        have hh := hm
        simp only [matchedFrom, Bool.and_eq_true, decide_eq_true_eq] at hh
        exact hh
      obtain ⟨hmem, hm2⟩ := hmm
      have h0s : 0 ≤ s := hnn _ (List.mem_cons_self _ _)
      have hnn2 : ∀ op ∈ rest, 0 ≤ Op.sz op :=
        fun op hop => hnn op (List.mem_cons_of_mem _ hop)
      have hssum : s ≤ avail.sum := mem_le_sum_of_nonneg avail s hmem hav
      have herase : (avail.erase s).sum = avail.sum - s := erase_sum_of_mem avail s hmem
      have hern : ∀ x ∈ avail.erase s, 0 ≤ x :=
        fun x hx => hav x (List.mem_of_mem_erase hx)
      by_cases hz : avail.sum = 0
      · have hd : DecrSize st s = (none, st) := by
          unfold DecrSize GetSize
          rw [if_pos (by omega)]
        have hrw : runOps st (Op.decr s :: rest) = runOps st rest := by
          simp only [runOps]
          rw [hd]
          rfl
        rw [hrw] at hok ⊢
        exact ih st (avail.erase s) hcl hq0 hq1 hwf0 hwf1 hnn2 (by omega) hern
          (by omega) hm2 hok
      · have hpos : 0 < st.size := by omega
        have hub1 : st.size ≤ INT64_MAX := by
          unfold INT64_MAX
          omega
        have hs1 : s ≤ INT64_MAX := by
          unfold INT64_MAX
          omega
        have hd0 := DecrSize_pos_eq st s hpos hub1 h0s hs1 hwf0 hwf1
        rw [if_neg (show ¬ st.size - s < 0 by omega)] at hd0
        by_cases hc : 0 < st.waitFull ∧ st.size - s < st.maxSize
        · rw [if_pos hc] at hd0
          have hrw : runOps st (Op.decr s :: rest) =
              runOps { st with
                        size := st.size - s
                        signalCount := st.signalCount + 1
                        waitFull := st.waitFull - 1 } rest := by
            simp only [runOps]
            rw [hd0]
            rfl
          rw [hrw] at hok ⊢
          refine ih _ (avail.erase s) hcl hq0 hq1 ?_ ?_ hnn2 ?_ hern ?_ hm2 hok
          · show (0:Int) ≤ st.waitFull - 1
            omega
          · show st.waitFull - 1 ≤ INT64_MAX
            unfold INT64_MAX at hwf1 ⊢
            omega
          · show st.size - s = (avail.erase s).sum
            omega
          · show (avail.erase s).sum ≤ st.maxSize
            omega
        · rw [if_neg hc] at hd0
          have hrw : runOps st (Op.decr s :: rest) =
              runOps { st with size := st.size - s } rest := by
            simp only [runOps]
            rw [hd0]
            rfl
          rw [hrw] at hok ⊢
          refine ih _ (avail.erase s) hcl hq0 hq1 hwf0 hwf1 hnn2 ?_ hern ?_ hm2 hok
          · show st.size - s = (avail.erase s).sum
            omega
          · show (avail.erase s).sum ≤ st.maxSize
            omega

/-- C4 counterexample: the code admits negative declared sizes, and with
them a fully matched, error-free execution need not return to size 0.  On
a fresh queue with quota 128 the run `Push 5, Push (-5), DecrSize 5,
Push 3, DecrSize (-5), DecrSize 3` has every `DecrSize` matched to a
distinct earlier successful `Push` of the same size, every call returns
nil (no `InvalidSize` anywhere), yet the final running size is 5, not 0:
the `DecrSize 5` arrived while the running size was 0 and was silently
skipped. -/
theorem push_decr_conservation_cex :
    matchedFrom [Op.push 5, Op.push (-5), Op.decr 5, Op.push 3,
      Op.decr (-5), Op.decr 3] [] = true ∧
    (runOps (NewMemBoundCh 10 128) [Op.push 5, Op.push (-5), Op.decr 5, Op.push 3,
      Op.decr (-5), Op.decr 3]).1 = true ∧
    GetSize (runOps (NewMemBoundCh 10 128) [Op.push 5, Op.push (-5), Op.decr 5,
      Op.push 3, Op.decr (-5), Op.decr 3]).2 = 5 := by
  refine ⟨by decide, by decide, by decide⟩

/-- C4 amended: on a queue created by `NewMemBoundCh` with a non-negative
quota below 2^62 (so that no int64 overflow can occur), for every
execution whose declared sizes are all non-negative, in which every call
returns nil (in particular no `DecrSize` returns `InvalidSize` and every
`Push` is successful) and in which every `DecrSize` is matched to a
distinct earlier successful `Push` of the same size with every `Push`
eventually matched, the final running size returned by `GetSize` is
exactly zero. -/
theorem push_decr_conservation (count : Nat) (q : Int) (ops : List Op)
    (hq0 : 0 ≤ q) (hq1 : 2 * q < 2 ^ 63)
    (hnn : ∀ op ∈ ops, 0 ≤ Op.sz op)
    (hm : matchedFrom ops [] = true)
    (hok : (runOps (NewMemBoundCh count q) ops).1 = true) :
    GetSize (runOps (NewMemBoundCh count q) ops).2 = 0 :=
  runOps_conservation_aux ops (NewMemBoundCh count q) [] rfl hq0 hq1
    (le_refl (0:Int))
    (by show (0:Int) ≤ INT64_MAX
        unfold INT64_MAX
        norm_num)
    hnn rfl (fun x hx => absurd hx (List.not_mem_nil x)) hq0 hm hok

theorem push_decr_conservation_witness :
    GetSize (runOps (NewMemBoundCh 4 10)
      [Op.push 2, Op.push 3, Op.decr 3, Op.decr 2]).2 = 0 :=
  push_decr_conservation 4 10 [Op.push 2, Op.push 3, Op.decr 3, Op.decr 2]
    (by decide) (by decide) (by decide) (by decide) (by decide)

/-- Producer control point inside one `Push(elem, elemsz)` call of the
interleaved model: before the atomic loads and checks at the top of the
loop body, after having decided to wait but before `mu.Lock()`, suspended
inside `notfull.Wait()`, or returned with an outcome. -/
inductive PStatus where
  | beforeCheck
  | beforeLock
  | waiting
  | returned (out : PushOutcome)
  deriving DecidableEq, Repr

/-- State of the two-thread interleaved model: the shared `MemBoundCh`
state, the producer's control point, and the declared size the producer is
pushing. -/
structure RaceState where
  mb : MemBoundCh
  prodStat : PStatus
  elemsz : Int
  deriving DecidableEq, Repr

/-- A scheduler step: let the producer run from its control point to its
next control point, or let the consumer run one whole `DecrSize s` call
(with no producer step inside it). -/
inductive RStep where
  | prodCheck
  | prodLockWait
  | consDecr (s : Int)
  deriving DecidableEq, Repr

/-- Interleaved micro-step semantics following the statement order of the
Go source.  `prodCheck` performs the oversize check, the closed check and
the capacity check of `Push`; these use atomic loads and run before
`mu.Lock()`, so the whole decision happens with no lock held.  If the
capacity check says full, the producer moves to `beforeLock`; otherwise
the iteration completes (reserve plus channel send, taken in one step —
the lost-wakeup trace never exercises this arm).  `prodLockWait` performs
`mu.Lock(); waitFull++; notfull.Wait()`: the producer is now suspended
with the mutex released.  `consDecr s` runs one entire `DecrSize s`
(`DecrSize` takes no lock in the source); if that call signalled while the
producer was suspended in `Wait`, the producer wakes and restarts the
loop; a signal emitted while the producer is not yet parked in `Wait`
wakes nobody, as with Go `sync.Cond.Signal`. -/
def raceStep (rs : RaceState) (step : RStep) : RaceState :=
  match step with
  | RStep.prodCheck =>
    match rs.prodStat with
    | PStatus.beforeCheck =>
      if GetMaxSize rs.mb < rs.elemsz then
        { rs with prodStat := PStatus.returned PushOutcome.errSize }
      else if rs.mb.closed ≠ 0 then
        { rs with prodStat := PStatus.returned PushOutcome.errClosed }
      else if GetMaxSize rs.mb < addInt64 (GetSize rs.mb) rs.elemsz then
        { rs with prodStat := PStatus.beforeLock }
      else if rs.mb.chElems.length < rs.mb.chCap then
        { rs with
            mb := { rs.mb with
                     size := addInt64 (GetSize rs.mb) rs.elemsz
                     chElems := rs.mb.chElems ++ [0] }
            prodStat := PStatus.returned PushOutcome.ok }
      else
        { rs with
            mb := { rs.mb with size := addInt64 (GetSize rs.mb) rs.elemsz }
            prodStat := PStatus.returned PushOutcome.wouldBlockSend }
    | _ => rs
  | RStep.prodLockWait =>
    match rs.prodStat with
    | PStatus.beforeLock =>
      { rs with
          mb := { rs.mb with waitFull := addInt64 rs.mb.waitFull 1 }
          prodStat := PStatus.waiting }
    | _ => rs
  | RStep.consDecr s =>
    if (DecrSize rs.mb s).2.signalCount ≠ rs.mb.signalCount ∧
        rs.prodStat = PStatus.waiting then
      { rs with mb := (DecrSize rs.mb s).2, prodStat := PStatus.beforeCheck }
    else { rs with mb := (DecrSize rs.mb s).2 }

/-- Run a schedule of interleaved steps. -/
def runRace (rs : RaceState) (steps : List RStep) : RaceState :=
  steps.foldl raceStep rs

set_option maxRecDepth 10000 in
/-- C9: the capacity check of `Push` is NOT performed under the mutex used
by the notifier (`DecrSize` never takes `mu` at all), and a release
between the check and the wait IS missed.  Concrete interleaving: quota
100, running size 100 (from one admitted `Push 100`); a producer pushing
size 40 runs its capacity check (full, so it decides to wait); the
consumer then runs a complete `DecrSize 100` — the size drops to 0, but
`waitFull` is still 0, so no signal is issued; the producer then registers
and blocks in `Wait`.  Final state: the producer is suspended as a
registered waiter, no signal was ever issued, and yet its element now fits
(`size + 40 ≤ quota`): with no further activity, it is blocked forever
while headroom exists — the lost wakeup the claimed monitor discipline
would prevent. -/
theorem push_lost_wakeup_cex :
    (runRace
      { mb := (runOps (NewMemBoundCh 10 100) [Op.push 100]).2
        prodStat := PStatus.beforeCheck
        elemsz := 40 }
      [RStep.prodCheck, RStep.consDecr 100, RStep.prodLockWait]).prodStat =
        PStatus.waiting ∧
    (runRace
      { mb := (runOps (NewMemBoundCh 10 100) [Op.push 100]).2
        prodStat := PStatus.beforeCheck
        elemsz := 40 }
      [RStep.prodCheck, RStep.consDecr 100, RStep.prodLockWait]).mb.waitFull = 1 ∧
    (runRace
      { mb := (runOps (NewMemBoundCh 10 100) [Op.push 100]).2
        prodStat := PStatus.beforeCheck
        elemsz := 40 }
      [RStep.prodCheck, RStep.consDecr 100, RStep.prodLockWait]).mb.signalCount = 0 ∧
    addInt64
      (GetSize (runRace
        { mb := (runOps (NewMemBoundCh 10 100) [Op.push 100]).2
          prodStat := PStatus.beforeCheck
          elemsz := 40 }
        [RStep.prodCheck, RStep.consDecr 100, RStep.prodLockWait]).mb) 40 ≤
      GetMaxSize (runRace
        { mb := (runOps (NewMemBoundCh 10 100) [Op.push 100]).2
          prodStat := PStatus.beforeCheck
          elemsz := 40 }
        [RStep.prodCheck, RStep.consDecr 100, RStep.prodLockWait]).mb := by
  refine ⟨by decide, by decide, by decide, by decide⟩
